import Mathlib

/-!
# minduweb: the Mindustry process supervisor (`main.go`)

A shallow embedding of the `Server` type of `main.go` and of its lifecycle
methods (`Pause`, `StartGame`, `Stop`, `Exit`, `Save`, `Load`), of one
iteration of the `AutosaveHandler` loop, and of `FSSaves`.

Modelling conventions.

* `Server.stdin` is an `io.Writer`.  It is modelled by `Writer`: the payloads
  handed to `Write` so far (`tried`), those for which `Write` returned a nil
  error (`sent`), and the outcomes of the writes still to come (`faults`).
  Every `fmt.Fprintf`/`fmt.Fprint` call of the source formats its arguments
  and performs exactly one `Write`.
* A Go `error` value is modelled by `GoError`; the nil error is `none`.
  `fmt.Errorf` with a `%w` verb builds a `*fmt.wrapError`, a message together
  with the wrapped error.
* `saveN` is a Go `int`; it is modelled by an `Int` and `saveN++` wraps at 64
  bits (`wrapInt`).
* `saveTicker` is a `*time.Ticker`.  Real time is not modelled: the field
  counts the `Reset` calls, and one delivery on the ticker's channel is one
  call of `Server.tick`, the body of the `for range s.saveTicker.C` loop.
* Go strings are modelled by Lean strings.
-/

namespace Minduweb

/-! ## Errors -/

/-- A Go `error` value: either an error reported by the underlying
`io.Writer`, or a `*fmt.wrapError` built by `fmt.Errorf("...%w", err)`. -/
inductive GoError where
  | transport (msg : String)
  | wrapError (msg : String) (err : GoError)
  deriving DecidableEq, Repr

/-- The method `Error()` of an error value. -/
def GoError.Error : GoError → String
  | .transport msg => msg
  | .wrapError msg _ => msg

/-- The method `Unwrap()`: the wrapped error of a `*fmt.wrapError`, nil
otherwise. -/
def GoError.Unwrap : GoError → Option GoError
  | .transport _ => none
  | .wrapError _ err => some err

/-- The call `fmt.Errorf(text + "%w", err)`: the message is the text followed
by `err.Error()`, and the result wraps `err`. -/
def Errorf (text : String) (err : GoError) : GoError :=
  .wrapError (text ++ err.Error) err

/-! ## The command channel -/

/-- The `io.Writer` behind `Server.stdin`. -/
structure Writer where
  /-- every payload handed to `Write`, oldest first -/
  tried : List String
  /-- the payloads whose `Write` returned a nil error, oldest first -/
  sent : List String
  /-- outcomes of the coming writes: `none` succeeds, `some e` fails with `e`;
  once the list is used up every write succeeds -/
  faults : List (Option GoError)
  deriving DecidableEq, Repr

/-- One `Write` call (as performed by one `fmt.Fprintf`): the new writer and
the returned error. -/
def Writer.Write (w : Writer) (p : String) : Writer × Option GoError :=
  match w.faults with
  | [] => ({ w with tried := w.tried ++ [p], sent := w.sent ++ [p] }, none)
  | none :: rest =>
      ({ tried := w.tried ++ [p], sent := w.sent ++ [p], faults := rest }, none)
  | some e :: rest =>
      ({ tried := w.tried ++ [p], sent := w.sent, faults := rest }, some e)

/-! ## The server -/

/-- Two's-complement wrap-around of a 64-bit Go `int`. -/
def wrapInt (z : Int) : Int := (z + 2 ^ 63) % 2 ^ 64 - 2 ^ 63

/-- The verb `%d` applied to an `int`. -/
def fmtD (n : Int) : String := toString n

/-- The fields of `Server` that the lifecycle methods read or write. -/
structure Server where
  stdin : Writer
  started : Bool
  /-- number of `Reset` calls made on the ticker -/
  saveTicker : Nat
  saveEnable : Bool
  saveN : Int
  deriving DecidableEq, Repr

/-- The method `ResetAutosaveTimer`. -/
def Server.ResetAutosaveTimer (s : Server) : Server :=
  { s with saveTicker := s.saveTicker + 1 }

/-- The method `Pause`; its parameter `on` is named `pauseOn` here. -/
def Server.Pause (s : Server) (pauseOn : Bool) : Server × Option GoError :=
  let s := { s with saveEnable := !pauseOn }
  let value := if pauseOn then "on" else "off"
  let (w, err) := s.stdin.Write ("pause " ++ value ++ "\n")
  let s := { s with stdin := w }
  match err with
  | some e => (s, some (Errorf "unable to pause game: " e))
  | none => (s, none)

/-- The method `Stop`. -/
def Server.Stop (s : Server) : Server × Option GoError :=
  let s := { s with started := false }
  let (w, err) := s.stdin.Write "stop\n"
  let s := { s with stdin := w }
  match err with
  | some e => (s, some (Errorf "unable to stop previous game: " e))
  | none => (s, none)

/-- The method `StartGame`; the error of the inner `Stop` is overwritten by
the result of the `host` write. -/
def Server.StartGame (s : Server) (mapname : String) : Server × Option GoError :=
  let s := { s with saveN := 0 }
  let s := s.ResetAutosaveTimer
  let (s, _) := s.Stop
  let (w, err) := s.stdin.Write ("host " ++ mapname ++ " survival\n")
  let s := { s with stdin := w }
  match err with
  | some e => (s, some (Errorf "unable to start game: " e))
  | none => ({ s with started := true }, none)

/-- The method `Exit`; the error of the inner `Stop` is overwritten by the
result of the `exit` write. -/
def Server.Exit (s : Server) : Server × Option GoError :=
  let (s, _) := s.Stop
  let (w, err) := s.stdin.Write "exit\n"
  let s := { s with stdin := w }
  match err with
  | some e => (s, some (Errorf "unable to exit game: " e))
  | none => (s, none)

/-- The method `Save`: the error of the write is returned as it is. -/
def Server.Save (s : Server) (name : String) : Server × Option GoError :=
  let (w, err) := s.stdin.Write ("save " ++ name ++ "\n")
  ({ s with stdin := w }, err)

/-- The method `Load`. -/
def Server.Load (s : Server) (name : String) : Server × Option GoError :=
  let s := s.ResetAutosaveTimer
  let (s, err) := s.Stop
  match err with
  | some e => (s, some (Errorf "unable to stop game: " e))
  | none =>
    let (w, err) := s.stdin.Write ("load " ++ name ++ "\n")
    let s := { s with stdin := w }
    match err with
    | some e => (s, some (Errorf "unable to load game: " e))
    | none => ({ s with started := true }, none)

/-- One iteration of the loop of `AutosaveHandler`, run for one delivery on
`saveTicker.C`.  The error of `Save` is only logged. -/
def Server.tick (s : Server) : Server :=
  if !s.started then s
  else if !s.saveEnable then s
  else
    let (s, _) := s.Save ("autosave-" ++ fmtD s.saveN)
    { s with saveN := wrapInt (s.saveN + 1) }

/-- The state built by `NewStartedServer`, over a given writer. -/
def NewStartedServer (w : Writer) : Server :=
  { stdin := w, started := false, saveTicker := 0, saveEnable := true, saveN := 0 }

/-- The error returned by the `i`-th of the coming writes, counted from 0;
`none` when that write succeeds. -/
def Writer.outcome (w : Writer) (i : Nat) : Option GoError :=
  w.faults.getD i none

/-- The calls that reach a `Server`: the lifecycle methods, invoked by the
HTTP handler and the signal handler, and the deliveries of the ticker. -/
inductive Op where
  | Pause (pauseOn : Bool)
  | StartGame (mapname : String)
  | Stop
  | Exit
  | Save (name : String)
  | Load (name : String)
  | tick
  deriving DecidableEq, Repr

/-- The effect of one call on the server; the returned error goes to the
caller, which only logs it. -/
def Server.step (s : Server) : Op → Server
  | .Pause pauseOn => (s.Pause pauseOn).1
  | .StartGame mapname => (s.StartGame mapname).1
  | .Stop => s.Stop.1
  | .Exit => s.Exit.1
  | .Save name => (s.Save name).1
  | .Load name => (s.Load name).1
  | .tick => s.tick

/-- An interleaving of calls, run in order. -/
def Server.run (s : Server) (ops : List Op) : Server :=
  ops.foldl Server.step s

/-- The calls `ops`, run from `s`, make no autosave and start, stop or load no
game: each of them is a `Pause`, a `Save`, or a tick that finds `saveEnable`
false. -/
def Server.quiet (s : Server) : List Op → Bool
  | [] => true
  | .Pause pauseOn :: ops => (s.Pause pauseOn).1.quiet ops
  | .Save name :: ops => (s.Save name).1.quiet ops
  | .tick :: ops => !s.saveEnable && s.tick.quiet ops
  | _ :: _ => false

/-- The payload written by `Save` for the autosave numbered `n`. -/
def autosaveLine (n : Int) : String :=
  "save autosave-" ++ fmtD n ++ "\n"

/-! ## The save enumerator -/

/-- The function `strings.HasPrefix`, on the characters of the strings. -/
def hasPrefixChars : List Char → List Char → Bool
  | _, [] => true
  | [], _ :: _ => false
  | c :: s, d :: p => c == d && hasPrefixChars s p

/-- The function `strings.Contains` (`strings.Index(s, substr) >= 0`), on the
characters of the strings: some position of `s` starts a copy of `substr`. -/
def containsChars : List Char → List Char → Bool
  | [], substr => hasPrefixChars [] substr
  | c :: s, substr => hasPrefixChars (c :: s) substr || containsChars s substr

/-- The function `strings.Contains`. -/
def Contains (s substr : String) : Bool :=
  containsChars s.data substr.data

/-- The function `strings.TrimPrefix`: `s` without the leading `pre`, or `s`
itself when it does not start with `pre`. -/
def TrimPrefix (s pre : String) : String :=
  if hasPrefixChars s.data pre.data then ⟨s.data.drop pre.data.length⟩ else s

/-- The function `strings.TrimSuffix`: `s` without the trailing `suf`, or `s`
itself when it does not end with `suf`. -/
def TrimSuffix (s suf : String) : String :=
  if suf.data.length ≤ s.data.length ∧
      s.data.drop (s.data.length - suf.data.length) = suf.data then
    ⟨s.data.take (s.data.length - suf.data.length)⟩
  else s

/-- The method `FSSaves`, over the list `all` returned by
`filepath.Glob("config/saves/*.msav")`. -/
def FSSaves (all : List String) : List String :=
  all.foldl
    (fun saves save =>
      if !Contains save "autosave" then
        saves ++ [TrimSuffix (TrimPrefix save "config/saves/") ".msav"]
      else saves)
    []

/-- The path that the glob pattern matches for a save called `name`. -/
def savePath (name : String) : String :=
  "config/saves/" ++ name ++ ".msav"

/-! ## Reading a decimal numeral back -/

/-- The value of a decimal digit character. -/
def digitVal (c : Char) : Nat := c.toNat - 48

/-- The number denoted by a list of decimal digits, most significant first. -/
def decVal : List Char → Nat
  | [] => 0
  | c :: cs => digitVal c * 10 ^ cs.length + decVal cs

/-! ## Example states -/

/-- A writer on which every write succeeds. -/
def okWriter : Writer := { tried := [], sent := [], faults := [] }

/-- A writer whose coming writes have the given outcomes. -/
def faultyWriter (faults : List (Option GoError)) : Writer :=
  { tried := [], sent := [], faults := faults }

/-- A transport error. -/
def brokenPipe : GoError := .transport "write |1: broken pipe"

/-- A running game with three autosaves made and autosaving paused. -/
def pausedServer : Server :=
  { stdin := okWriter, started := true, saveTicker := 0, saveEnable := false, saveN := 3 }

/-- A running game with three autosaves made, over a given writer. -/
def runningServer (w : Writer) : Server :=
  { stdin := w, started := true, saveTicker := 0, saveEnable := true, saveN := 3 }

/-! ## Auxiliary lemmas -/

theorem autosaveLine_eq (n : Int) :
    "save " ++ ("autosave-" ++ fmtD n) ++ "\n" = autosaveLine n := by
  unfold autosaveLine
  rw [← String.append_assoc]
  rfl

theorem wrapInt_of_range (z : Int) (h1 : -2 ^ 63 ≤ z) (h2 : z < 2 ^ 63) :
    wrapInt z = z := by
  unfold wrapInt
  omega

theorem wrapError_ne (e : GoError) : ∀ msg : String, GoError.wrapError msg e ≠ e := by
  induction e with
  | transport m => intro msg h; cases h
  | wrapError m e ih =>
    intro msg h
    injection h with _ h2
    exact ih m h2

theorem Errorf_ne (text : String) (e : GoError) : Errorf text e ≠ e :=
  wrapError_ne e _

theorem tick_idle (s : Server) (h : s.started = false ∨ s.saveEnable = false) :
    s.tick = s := by
  rcases h with h | h <;> simp [Server.tick, h]

theorem tick_running (s : Server) (h1 : s.started = true) (h2 : s.saveEnable = true) :
    s.tick.stdin.tried = s.stdin.tried ++ [autosaveLine s.saveN] ∧
    s.tick.saveN = wrapInt (s.saveN + 1) ∧
    s.tick.started = true ∧ s.tick.saveEnable = true := by
  obtain ⟨⟨tried, sent, faults⟩, started, tk, en, n⟩ := s
  simp only at h1 h2
  subst h1 h2
  rcases faults with _ | ⟨_ | e, rest⟩ <;>
    simp [Server.tick, Server.Save, Writer.Write, autosaveLine_eq]

theorem run_ticks (j : Nat) : ∀ s : Server,
    s.started = true → s.saveEnable = true → -2 ^ 63 ≤ s.saveN → s.saveN + j < 2 ^ 63 →
    (s.run (List.replicate j Op.tick)).stdin.tried
      = s.stdin.tried ++ (List.range j).map (fun i : Nat => autosaveLine (s.saveN + i)) ∧
    (s.run (List.replicate j Op.tick)).saveN = s.saveN + j ∧
    (s.run (List.replicate j Op.tick)).started = true ∧
    (s.run (List.replicate j Op.tick)).saveEnable = true := by
  induction j with
  | zero => intro s h1 h2 _ _; simp [Server.run, h1, h2]
  | succ j ih =>
    intro s h1 h2 h3 h4
    obtain ⟨t1, t2, t3, t4⟩ := tick_running s h1 h2
    have hn : s.tick.saveN = s.saveN + 1 := by
      rw [t2]; exact wrapInt_of_range _ (by omega) (by push_cast at h4; omega)
    obtain ⟨r1, r2, r3, r4⟩ := ih s.tick t3 t4 (by omega) (by push_cast at h4; omega)
    have hrun : s.run (List.replicate (j + 1) Op.tick)
        = s.tick.run (List.replicate j Op.tick) := by
      simp [Server.run, List.replicate_succ, Server.step]
    rw [hrun]
    refine ⟨?_, ?_, r3, r4⟩
    · have hf : (fun i : Nat => autosaveLine (s.saveN + 1 + i))
          = (fun i : Nat => autosaveLine (s.saveN + i)) ∘ Nat.succ := by
        funext i
        simp only [Function.comp]
        congr 1
        push_cast
        omega
      rw [r1, t1, hn, List.range_succ_eq_map, List.map_cons, List.map_map, hf]
      simp
    · rw [r2, hn]; push_cast; omega

theorem Pause_fields (s : Server) (pauseOn : Bool) :
    (s.Pause pauseOn).1.saveN = s.saveN ∧ (s.Pause pauseOn).1.started = s.started := by
  obtain ⟨⟨tried, sent, faults⟩, started, tk, en, n⟩ := s
  rcases faults with _ | ⟨_ | e, rest⟩ <;> simp [Server.Pause, Writer.Write]

theorem Save_fields (s : Server) (name : String) :
    (s.Save name).1.saveN = s.saveN ∧ (s.Save name).1.started = s.started := by
  simp [Server.Save]

theorem Load_saveN (s : Server) (n : String) : (s.Load n).1.saveN = s.saveN := by
  obtain ⟨⟨tried, sent, faults⟩, started, tk, en, k⟩ := s
  rcases faults with _ | ⟨_ | e1, _ | ⟨_ | e2, rest⟩⟩ <;>
    simp [Server.Load, Server.Stop, Server.ResetAutosaveTimer, Writer.Write]

theorem Load_ok_started (s : Server) (n : String) (h : (s.Load n).2 = none) :
    (s.Load n).1.started = true := by
  obtain ⟨⟨tried, sent, faults⟩, started, tk, en, k⟩ := s
  revert h
  rcases faults with _ | ⟨_ | e1, _ | ⟨_ | e2, rest⟩⟩ <;>
    simp [Server.Load, Server.Stop, Server.ResetAutosaveTimer, Writer.Write]

theorem StartGame_ok_fields (s : Server) (m : String) (h : (s.StartGame m).2 = none) :
    (s.StartGame m).1.started = true ∧ (s.StartGame m).1.saveN = 0 := by
  obtain ⟨⟨tried, sent, faults⟩, started, tk, en, k⟩ := s
  revert h
  rcases faults with _ | ⟨_ | e1, _ | ⟨_ | e2, rest⟩⟩ <;>
    simp [Server.StartGame, Server.Stop, Server.ResetAutosaveTimer, Writer.Write]

theorem quiet_run (ops : List Op) : ∀ s : Server, s.quiet ops = true →
    (s.run ops).saveN = s.saveN ∧ (s.run ops).started = s.started := by
  induction ops with
  | nil => intro s _; exact ⟨rfl, rfl⟩
  | cons op ops ih =>
    intro s h
    have hrun : s.run (op :: ops) = (s.step op).run ops := rfl
    rw [hrun]
    cases op with
    | Pause pauseOn =>
      obtain ⟨h1, h2⟩ := ih (s.Pause pauseOn).1 (by simpa [Server.quiet] using h)
      obtain ⟨p1, p2⟩ := Pause_fields s pauseOn
      exact ⟨by simp only [Server.step]; rw [h1, p1], by simp only [Server.step]; rw [h2, p2]⟩
    | Save name =>
      obtain ⟨h1, h2⟩ := ih (s.Save name).1 (by simpa [Server.quiet] using h)
      obtain ⟨p1, p2⟩ := Save_fields s name
      exact ⟨by simp only [Server.step]; rw [h1, p1], by simp only [Server.step]; rw [h2, p2]⟩
    | tick =>
      simp only [Server.quiet, Bool.and_eq_true, Bool.not_eq_true'] at h
      have ht : s.tick = s := tick_idle s (Or.inr h.1)
      simp only [Server.step]
      rw [ht] at h ⊢
      exact ih s h.2
    | StartGame m => simp [Server.quiet] at h
    | Stop => simp [Server.quiet] at h
    | Exit => simp [Server.quiet] at h
    | Load n => simp [Server.quiet] at h

/-! ### The verb `%d` is injective -/

theorem digitVal_digitChar (k : Nat) (h : k < 10) : digitVal (Nat.digitChar k) = k := by
  interval_cases k <;> rfl

theorem digitChar_ne_minus (k : Nat) (h : k < 10) : Nat.digitChar k ≠ '-' := by
  interval_cases k <;> decide

theorem decVal_toDigitsCore : ∀ (fuel n : Nat) (ds : List Char), n < fuel →
    decVal (Nat.toDigitsCore 10 fuel n ds) = n * 10 ^ ds.length + decVal ds := by
  intro fuel
  induction fuel with
  | zero => intro n ds h; omega
  | succ fuel ih =>
    intro n ds h
    have hd := digitVal_digitChar (n % 10) (Nat.mod_lt _ (by decide))
    unfold Nat.toDigitsCore
    by_cases h0 : n / 10 = 0
    · have hn : n % 10 = n := Nat.mod_eq_of_lt (by omega)
      rw [hn] at hd
      simp [h0, decVal, hd, hn]
    · simp only [h0, if_false]
      rw [ih (n / 10) _ (by omega)]
      simp only [decVal, hd, List.length_cons, pow_succ]
      have e : n * 10 ^ ds.length = (10 * (n / 10) + n % 10) * 10 ^ ds.length := by
        rw [Nat.div_add_mod]
      rw [e]
      ring

theorem noMinus_toDigitsCore : ∀ (fuel n : Nat) (ds : List Char),
    (∀ c ∈ ds, c ≠ '-') → ∀ c ∈ Nat.toDigitsCore 10 fuel n ds, c ≠ '-' := by
  intro fuel
  induction fuel with
  | zero => intro n ds h; simpa [Nat.toDigitsCore] using h
  | succ fuel ih =>
    intro n ds h
    have hd := digitChar_ne_minus (n % 10) (Nat.mod_lt _ (by decide))
    have h2 : ∀ c ∈ Nat.digitChar (n % 10) :: ds, c ≠ '-' := by
      intro c hc
      rcases List.mem_cons.1 hc with rfl | hc
      · exact hd
      · exact h c hc
    unfold Nat.toDigitsCore
    by_cases h0 : n / 10 = 0
    · simpa [h0] using h2
    · simp only [h0, if_false]
      exact ih _ _ h2

theorem decVal_repr (n : Nat) : decVal (Nat.repr n).data = n := by
  simp [Nat.repr, Nat.toDigits, List.asString, decVal_toDigitsCore, decVal]

theorem noMinus_repr (n : Nat) : ∀ c ∈ (Nat.repr n).data, c ≠ '-' := by
  simp only [Nat.repr, Nat.toDigits, List.asString]
  exact noMinus_toDigitsCore _ _ _ (by simp)

theorem repr_injective {a b : Nat} (h : Nat.repr a = Nat.repr b) : a = b := by
  rw [← decVal_repr a, ← decVal_repr b, h]

theorem fmtD_ofNat (m : Nat) : fmtD (Int.ofNat m) = Nat.repr m := rfl

theorem fmtD_negSucc (m : Nat) : fmtD (Int.negSucc m) = "-" ++ Nat.repr (m + 1) := rfl

theorem fmtD_injective : Function.Injective fmtD := by
  intro a b h
  cases a with
  | ofNat m =>
    cases b with
    | ofNat m2 =>
      rw [fmtD_ofNat, fmtD_ofNat] at h
      rw [repr_injective h]
    | negSucc m2 =>
      rw [fmtD_ofNat, fmtD_negSucc] at h
      have := noMinus_repr m '-' (by rw [h]; simp)
      exact absurd rfl this
  | negSucc m =>
    cases b with
    | ofNat m2 =>
      rw [fmtD_ofNat, fmtD_negSucc] at h
      have := noMinus_repr m2 '-' (by rw [← h]; simp)
      exact absurd rfl this
    | negSucc m2 =>
      rw [fmtD_negSucc, fmtD_negSucc] at h
      have h2 : (Nat.repr (m + 1)).data = (Nat.repr (m2 + 1)).data := by
        have := congrArg String.data h
        simpa using this
      have h3 : m + 1 = m2 + 1 := by
        rw [← decVal_repr (m + 1), ← decVal_repr (m2 + 1), h2]
      have : m = m2 := by omega
      rw [this]

theorem autosaveLine_injective : Function.Injective autosaveLine := by
  intro a b h
  unfold autosaveLine at h
  have h2 := congrArg String.data h
  simp only [String.data_append, List.append_cancel_right_eq, List.append_cancel_left_eq] at h2
  exact fmtD_injective (String.ext h2)

/-! ### Searching a save path -/

theorem hasPrefixChars_append_stop (d : Char) (rest : List Char) :
    ∀ (l sub : List Char), d ∉ sub →
      hasPrefixChars (l ++ d :: rest) sub = hasPrefixChars l sub := by
  intro l
  induction l with
  | nil =>
    intro sub hd
    cases sub with
    | nil => rfl
    | cons e sub =>
      have : d ≠ e := fun h => hd (by simp [h])
      simp [hasPrefixChars, this]
  | cons c l ih =>
    intro sub hd
    cases sub with
    | nil => rfl
    | cons e sub =>
      have : d ∉ sub := fun h => hd (List.mem_cons_of_mem _ h)
      simp [hasPrefixChars, ih sub this]

theorem containsChars_append_stop (d : Char) (rest sub : List Char) (hd : d ∉ sub)
    (hne : sub ≠ []) (hrest : containsChars (d :: rest) sub = false) :
    ∀ l : List Char, containsChars (l ++ d :: rest) sub = containsChars l sub := by
  intro l
  induction l with
  | nil =>
    cases sub with
    | nil => exact absurd rfl hne
    | cons e sub => simpa [containsChars, hasPrefixChars] using hrest
  | cons c l ih =>
    have h := hasPrefixChars_append_stop d rest (c :: l) sub hd
    simp only [List.cons_append] at h ⊢
    simp only [containsChars, h, ih]

theorem hasPrefixChars_append_self (p x : List Char) : hasPrefixChars (p ++ x) p = true := by
  induction p with
  | nil => cases x <;> rfl
  | cons c p ih => simp [hasPrefixChars, ih]

theorem Contains_savePath (name : String) :
    Contains (savePath name) "autosave" = Contains name "autosave" := by
  have h1 : ∀ x : List Char, containsChars ("config/saves/".data ++ x) "autosave".data
      = containsChars x "autosave".data := by
    intro x
    simp [containsChars, hasPrefixChars]
  have h2 : ∀ l : List Char, containsChars (l ++ ".msav".data) "autosave".data
      = containsChars l "autosave".data :=
    containsChars_append_stop '.' "msav".data "autosave".data (by decide) (by decide)
      (by decide)
  simp only [Contains, savePath, String.data_append, List.append_assoc]
  rw [h1, h2]

theorem TrimPrefix_savePath (name : String) :
    TrimPrefix (savePath name) "config/saves/" = name ++ ".msav" := by
  have : (savePath name).data = "config/saves/".data ++ (name ++ ".msav").data := by
    simp [savePath]
  apply String.ext
  simp only [TrimPrefix, this, hasPrefixChars_append_self, if_true, List.drop_left]

theorem TrimSuffix_msav (name : String) :
    TrimSuffix (name ++ ".msav") ".msav" = name := by
  apply String.ext
  simp [TrimSuffix]

theorem FSSaves_foldl (all : List String) : ∀ acc : List String,
    all.foldl
      (fun saves save =>
        if !Contains save "autosave" then
          saves ++ [TrimSuffix (TrimPrefix save "config/saves/") ".msav"]
        else saves) acc
    = acc ++ (all.filter (fun save => !Contains save "autosave")).map
        (fun save => TrimSuffix (TrimPrefix save "config/saves/") ".msav") := by
  induction all with
  | nil => intro acc; simp
  | cons a all ih =>
    intro acc
    rw [List.foldl_cons, ih]
    by_cases h : Contains a "autosave" = true <;> simp [h, List.filter_cons]

theorem FSSaves_savePaths (names : List String) :
    FSSaves (names.map savePath) = names.filter (fun n => !Contains n "autosave") := by
  unfold FSSaves
  rw [FSSaves_foldl]
  induction names with
  | nil => rfl
  | cons a names ih =>
    simp only [List.nil_append] at ih
    by_cases h : Contains a "autosave" = true <;>
      simp [List.filter_cons, Contains_savePath, TrimPrefix_savePath, TrimSuffix_msav, h, ih]

/-! ## The lifecycle methods -/

/-- C1. `StartGame(m)` leaves `saveN = 0` whatever it was before; and when the
two writes it performs succeed, it appends exactly the lines `stop` and
`host m survival`, in that order, to the channel, returns a nil error, and
leaves `started = true` with `saveEnable` unchanged. -/
theorem StartGame_spec (s : Server) (m : String) :
    (s.StartGame m).1.saveN = 0 ∧
    (s.stdin.outcome 0 = none → s.stdin.outcome 1 = none →
      (s.StartGame m).1.stdin.sent
        = s.stdin.sent ++ ["stop\n", "host " ++ m ++ " survival\n"] ∧
      (s.StartGame m).1.stdin.tried
        = s.stdin.tried ++ ["stop\n", "host " ++ m ++ " survival\n"] ∧
      (s.StartGame m).2 = none ∧
      (s.StartGame m).1.started = true ∧
      (s.StartGame m).1.saveEnable = s.saveEnable) := by
  obtain ⟨⟨tried, sent, faults⟩, started, tk, en, n⟩ := s
  rcases faults with _ | ⟨_ | e, _ | ⟨_ | e2, rest⟩⟩ <;>
    simp [Server.StartGame, Server.Stop, Server.ResetAutosaveTimer, Writer.Write,
      Writer.outcome]

theorem StartGame_spec_witness :
    (runningServer okWriter).stdin.outcome 0 = none ∧
    (runningServer okWriter).stdin.outcome 1 = none ∧
    ((runningServer okWriter).StartGame "Molten_Lake").1.stdin.sent
      = ["stop\n", "host Molten_Lake survival\n"] ∧
    ((runningServer okWriter).StartGame "Molten_Lake").1.started = true ∧
    ((runningServer okWriter).StartGame "Molten_Lake").1.saveN = 0 :=
  have h := (StartGame_spec (runningServer okWriter) "Molten_Lake").2 (by decide) (by decide)
  ⟨by decide, by decide, h.1, h.2.2.2.1,
    (StartGame_spec (runningServer okWriter) "Molten_Lake").1⟩

/-- C10. When the two writes succeed, calling `Stop` twice in a row appends
exactly two `stop` lines to the channel, both calls return a nil error, and
the session fields after the second call equal those after the first:
`started = false`, and `saveN`, `saveEnable` as before the first call. -/
theorem Stop_twice (s : Server)
    (h0 : s.stdin.outcome 0 = none) (h1 : s.stdin.outcome 1 = none) :
    s.Stop.1.Stop.1.stdin.sent = s.stdin.sent ++ ["stop\n", "stop\n"] ∧
    s.Stop.1.Stop.1.stdin.tried = s.stdin.tried ++ ["stop\n", "stop\n"] ∧
    s.Stop.2 = none ∧ s.Stop.1.Stop.2 = none ∧
    s.Stop.1.started = false ∧ s.Stop.1.saveN = s.saveN ∧
    s.Stop.1.saveEnable = s.saveEnable ∧
    s.Stop.1.Stop.1.started = s.Stop.1.started ∧
    s.Stop.1.Stop.1.saveN = s.Stop.1.saveN ∧
    s.Stop.1.Stop.1.saveEnable = s.Stop.1.saveEnable ∧
    s.Stop.1.Stop.1.saveTicker = s.Stop.1.saveTicker := by
  obtain ⟨⟨tried, sent, faults⟩, started, tk, en, n⟩ := s
  rcases faults with _ | ⟨_ | e, _ | ⟨_ | e2, rest⟩⟩ <;>
    simp_all [Server.Stop, Writer.Write, Writer.outcome]

theorem Stop_twice_witness :
    (runningServer okWriter).Stop.1.Stop.1.stdin.sent = [] ++ ["stop\n", "stop\n"] ∧
    (runningServer okWriter).Stop.1.Stop.1.started = (runningServer okWriter).Stop.1.started :=
  have h := Stop_twice (runningServer okWriter) (by decide) (by decide)
  ⟨h.1, h.2.2.2.2.2.2.2.1⟩

/-- C7. `Pause(on)` sets `saveEnable = !on`, leaves `started` and `saveN`
unchanged, and writes exactly one line, `pause on` when `on` is true and
`pause off` when it is false.  A tick right after `Pause(true)` writes
nothing; a tick right after `Pause(false)` on a started session writes exactly
one line, a `save` command. -/
theorem Pause_spec (s : Server) (pauseOn : Bool) :
    (s.Pause pauseOn).1.saveEnable = (!pauseOn) ∧
    (s.Pause pauseOn).1.started = s.started ∧
    (s.Pause pauseOn).1.saveN = s.saveN ∧
    (s.Pause pauseOn).1.stdin.tried
      = s.stdin.tried ++ [if pauseOn then "pause on\n" else "pause off\n"] ∧
    (s.Pause true).1.tick.stdin = (s.Pause true).1.stdin ∧
    (s.started = true →
      (s.Pause false).1.tick.stdin.tried
        = (s.Pause false).1.stdin.tried ++ [autosaveLine s.saveN]) := by
  obtain ⟨⟨tried, sent, faults⟩, started, tk, en, n⟩ := s
  rcases faults with _ | ⟨_ | e, _ | ⟨_ | e2, rest⟩⟩ <;> cases pauseOn <;>
    simp [Server.Pause, Server.tick, Server.Save, Writer.Write, autosaveLine_eq] <;>
    (intro h; simp [h])

theorem Pause_spec_witness :
    (runningServer okWriter).started = true ∧
    ((runningServer okWriter).Pause false).1.tick.stdin.tried
      = ((runningServer okWriter).Pause false).1.stdin.tried ++ [autosaveLine 3] :=
  ⟨rfl, (Pause_spec (runningServer okWriter) false).2.2.2.2.2 rfl⟩

/-! ## The autosave tick -/

/-- C3. One tick on a session with `saveN = k`.  If `started` or `saveEnable`
is false the tick changes nothing: no write, `saveN = k`.  Otherwise it
attempts exactly one write, of the line `save autosave-k`, and increments
`saveN` whatever the outcome of that write; the increment gives `k + 1` for
every `k` below the largest `int`.  `started` and `saveEnable` are unchanged in
every case. -/
theorem tick_spec (s : Server) :
    (s.started = false ∨ s.saveEnable = false → s.tick = s) ∧
    (s.started = true → s.saveEnable = true →
      s.tick.stdin.tried = s.stdin.tried ++ [autosaveLine s.saveN] ∧
      s.tick.stdin.faults = s.stdin.faults.tail ∧
      s.tick.saveN = wrapInt (s.saveN + 1) ∧
      (-2 ^ 63 ≤ s.saveN → s.saveN < 2 ^ 63 - 1 → s.tick.saveN = s.saveN + 1)) ∧
    s.tick.started = s.started ∧
    s.tick.saveEnable = s.saveEnable := by
  obtain ⟨⟨tried, sent, faults⟩, started, tk, en, n⟩ := s
  have hw : -2 ^ 63 ≤ n → n < 2 ^ 63 - 1 → wrapInt (n + 1) = n + 1 := fun h1 h2 =>
    wrapInt_of_range (n + 1) (by omega) (by omega)
  rcases faults with _ | ⟨_ | e, rest⟩ <;> cases started <;> cases en <;>
    simp [Server.tick, Server.Save, Writer.Write, autosaveLine_eq] <;> exact hw

theorem tick_spec_witness :
    (runningServer (faultyWriter [some brokenPipe])).tick.stdin.tried = [autosaveLine 3] ∧
    (runningServer (faultyWriter [some brokenPipe])).tick.stdin.sent = [] ∧
    (runningServer (faultyWriter [some brokenPipe])).tick.saveN = 3 + 1 :=
  have h := (tick_spec (runningServer (faultyWriter [some brokenPipe]))).2.1 rfl rfl
  ⟨h.1, by decide, h.2.2.2 (by decide) (by decide)⟩

/-! ## Transport failures -/

/-- C4, as stated, fails: there is a session on which the `host` write of
`StartGame` fails and the session is left with `started = false`. -/
theorem StartGame_failed_write_not_started :
    ¬ ∀ (s : Server) (m : String) (e : GoError),
        s.stdin.outcome 1 = some e → (s.StartGame m).1.started = true := by
  intro h
  have h1 := h (runningServer (faultyWriter [none, some brokenPipe])) "Molten_Lake"
    brokenPipe (by decide)
  revert h1
  decide

/-- C4, amended. `Stop` and `Pause` set their flag before writing and keep it
when the write fails: `started = false` after `Stop`, `saveEnable = !on` after
`Pause(on)`.  `StartGame` and `Load` set `started = true` only after their
`host` or `load` write succeeded: when that write fails, and for `Load` also
when the `stop` write fails, the session is left with `started = false`. -/
theorem flags_after_failed_write (s : Server) (e : GoError) :
    (s.stdin.outcome 0 = some e → s.Stop.2 ≠ none ∧ s.Stop.1.started = false) ∧
    (s.stdin.outcome 0 = some e → ∀ pauseOn : Bool,
      (s.Pause pauseOn).2 ≠ none ∧ (s.Pause pauseOn).1.saveEnable = (!pauseOn)) ∧
    (s.stdin.outcome 1 = some e → ∀ m : String,
      (s.StartGame m).2 ≠ none ∧ (s.StartGame m).1.started = false) ∧
    (s.stdin.outcome 0 = none → s.stdin.outcome 1 = some e → ∀ n : String,
      (s.Load n).2 ≠ none ∧ (s.Load n).1.started = false) ∧
    (s.stdin.outcome 0 = some e → ∀ n : String,
      (s.Load n).2 ≠ none ∧ (s.Load n).1.started = false) := by
  obtain ⟨⟨tried, sent, faults⟩, started, tk, en, n⟩ := s
  rcases faults with _ | ⟨_ | e1, _ | ⟨_ | e2, rest⟩⟩ <;>
    simp [Server.StartGame, Server.Load, Server.Stop, Server.Pause,
      Server.ResetAutosaveTimer, Writer.Write, Writer.outcome]

theorem flags_after_failed_write_witness :
    (runningServer (faultyWriter [none, some brokenPipe])).stdin.outcome 1 = some brokenPipe ∧
    ((runningServer (faultyWriter [none, some brokenPipe])).StartGame "Molten_Lake").2 ≠ none ∧
    ((runningServer (faultyWriter [none, some brokenPipe])).StartGame "Molten_Lake").1.started
      = false :=
  ⟨by decide,
    (flags_after_failed_write (runningServer (faultyWriter [none, some brokenPipe]))
      brokenPipe).2.2.1 (by decide) "Molten_Lake"⟩

/-- C2, as stated, fails: there is a session on which the `stop` write of
`Load` fails and `Load` does not go on to write the `load` line. -/
theorem Load_failed_stop_aborts :
    ¬ ∀ (s : Server) (n : String) (e : GoError),
        s.stdin.outcome 0 = some e →
        (s.Load n).1.stdin.tried = s.stdin.tried ++ ["stop\n", "load " ++ n ++ "\n"] := by
  intro h
  have h1 := h (runningServer (faultyWriter [some brokenPipe])) "mysafe" brokenPipe
    (by decide)
  revert h1
  decide

/-- C2, amended. A failure of the `stop` write inside `Load(n)` aborts the
load: `Load` returns the error of `Stop` wrapped with "unable to stop game: ",
writes nothing after the `stop` line, and leaves `started = false`.  When the
`stop` write succeeds, `Load` goes on to write the line `load n`, and if that
write succeeds too it returns a nil error and leaves `started = true`. -/
theorem Load_spec (s : Server) (n : String) :
    (∀ e : GoError, s.stdin.outcome 0 = some e →
      (s.Load n).1.stdin.tried = s.stdin.tried ++ ["stop\n"] ∧
      (s.Load n).2
        = some (Errorf "unable to stop game: " (Errorf "unable to stop previous game: " e)) ∧
      (s.Load n).1.started = false) ∧
    (s.stdin.outcome 0 = none →
      (s.Load n).1.stdin.tried = s.stdin.tried ++ ["stop\n", "load " ++ n ++ "\n"] ∧
      (s.stdin.outcome 1 = none →
        (s.Load n).1.stdin.sent = s.stdin.sent ++ ["stop\n", "load " ++ n ++ "\n"] ∧
        (s.Load n).2 = none ∧ (s.Load n).1.started = true)) := by
  obtain ⟨⟨tried, sent, faults⟩, started, tk, en, k⟩ := s
  rcases faults with _ | ⟨_ | e1, _ | ⟨_ | e2, rest⟩⟩ <;>
    simp [Server.Load, Server.Stop, Server.ResetAutosaveTimer, Writer.Write, Writer.outcome]

theorem Load_spec_witness :
    (runningServer (faultyWriter [some brokenPipe])).stdin.outcome 0 = some brokenPipe ∧
    ((runningServer (faultyWriter [some brokenPipe])).Load "mysafe").1.stdin.tried
      = [] ++ ["stop\n"] ∧
    ((runningServer (faultyWriter [some brokenPipe])).Load "mysafe").1.started = false :=
  have h := (Load_spec (runningServer (faultyWriter [some brokenPipe])) "mysafe").1
    brokenPipe (by decide)
  ⟨by decide, h.1, h.2.2⟩

/-- C9. The code breaks the claim for `Save`: on a session whose next write
fails with the transport error `brokenPipe`, `Save` returns `brokenPipe`
itself, neither wrapped nor given a message, while `Stop` on the same session
returns it wrapped under "unable to stop previous game: ".  So it is not true
that every lifecycle method returns a non-nil error other than the bare
transport error. -/
theorem Save_returns_bare_error :
    (runningServer (faultyWriter [some brokenPipe])).stdin.outcome 0 = some brokenPipe ∧
    ((runningServer (faultyWriter [some brokenPipe])).Save "mysafe").2 = some brokenPipe ∧
    (runningServer (faultyWriter [some brokenPipe])).Stop.2
      = some (Errorf "unable to stop previous game: " brokenPipe) ∧
    ¬ ∀ (s : Server) (name : String) (e : GoError),
        s.stdin.outcome 0 = some e →
        (s.Save name).2 ≠ none ∧ (s.Save name).2 ≠ some e := by
  refine ⟨by decide, by decide, by decide, ?_⟩
  intro h
  have h1 := h (runningServer (faultyWriter [some brokenPipe])) "mysafe" brokenPipe
    (by decide)
  revert h1
  decide

/-- The error paths of the lifecycle methods, for every session.  When the
write of the own command of `Pause`, `Stop`, `StartGame`, `Exit` or `Load`
fails with a transport error `e`, the method returns a non-nil error that
wraps `e` under a message naming the operation; such an error is never `e`
itself.  `Save` returns `e` as it is, unwrapped. -/
theorem write_failure_reported (s : Server) (e : GoError) :
    (s.stdin.outcome 0 = some e → ∀ pauseOn : Bool,
      (s.Pause pauseOn).2 = some (Errorf "unable to pause game: " e)) ∧
    (s.stdin.outcome 0 = some e →
      s.Stop.2 = some (Errorf "unable to stop previous game: " e)) ∧
    (s.stdin.outcome 1 = some e → ∀ m : String,
      (s.StartGame m).2 = some (Errorf "unable to start game: " e)) ∧
    (s.stdin.outcome 1 = some e →
      s.Exit.2 = some (Errorf "unable to exit game: " e)) ∧
    (s.stdin.outcome 0 = none → s.stdin.outcome 1 = some e → ∀ n : String,
      (s.Load n).2 = some (Errorf "unable to load game: " e)) ∧
    (s.stdin.outcome 0 = some e → ∀ name : String, (s.Save name).2 = some e) ∧
    (∀ text : String, Errorf text e ≠ e ∧ (Errorf text e).Unwrap = some e ∧
      (Errorf text e).Error = text ++ e.Error) := by
  obtain ⟨⟨tried, sent, faults⟩, started, tk, en, n⟩ := s
  have hE : ∀ text : String, Errorf text e ≠ e ∧ (Errorf text e).Unwrap = some e ∧
      (Errorf text e).Error = text ++ e.Error :=
    fun text => ⟨Errorf_ne text e, rfl, rfl⟩
  refine ⟨?_, ?_, ?_, ?_, ?_, ?_, hE⟩ <;>
    rcases faults with _ | ⟨_ | e1, _ | ⟨_ | e2, rest⟩⟩ <;>
    simp [Server.StartGame, Server.Load, Server.Stop, Server.Pause, Server.Exit,
      Server.Save, Server.ResetAutosaveTimer, Writer.Write, Writer.outcome] <;>
    (intro h; simp [h])

theorem write_failure_reported_witness :
    (runningServer (faultyWriter [none, some brokenPipe])).stdin.outcome 1 = some brokenPipe ∧
    (runningServer (faultyWriter [none, some brokenPipe])).Exit.2
      = some (Errorf "unable to exit game: " brokenPipe) :=
  ⟨by decide,
    (write_failure_reported (runningServer (faultyWriter [none, some brokenPipe]))
      brokenPipe).2.2.2.1 (by decide)⟩

/-! ## The autosave sequence -/

/-- C6, as stated, fails for `Load`: there is a session on which `Load`
succeeds and the next tick, with `saveEnable = true`, does not write
`save autosave-0`. -/
theorem Load_keeps_saveN :
    ¬ ∀ (s : Server) (n : String),
        (s.Load n).2 = none → (s.Load n).1.saveEnable = true →
        (s.Load n).1.tick.stdin.tried = (s.Load n).1.stdin.tried ++ [autosaveLine 0] := by
  intro h
  have h1 := h (runningServer okWriter) "mysafe" (by decide) (by decide)
  revert h1
  decide

/-- C6, amended. The number in an autosave name counts the autosaves since the
last `StartGame`; `Load` leaves `saveN` as it is, whatever the outcome of its
writes and whatever the flags.  After a successful `StartGame(m)` the first
tick with `saveEnable = true`, coming after any `Pause` and `Save` calls and
any ticks skipped because `saveEnable` was false, writes `save autosave-0`;
after a successful `Load(n)` on a session with `saveN = k` it writes
`save autosave-k`. -/
theorem first_autosave (s : Server) :
    (∀ n : String, (s.Load n).1.saveN = s.saveN) ∧
    (∀ (m : String) (ops : List Op), (s.StartGame m).2 = none →
      (s.StartGame m).1.quiet ops = true →
      ((s.StartGame m).1.run ops).saveEnable = true →
      ((s.StartGame m).1.run ops).tick.stdin.tried
        = ((s.StartGame m).1.run ops).stdin.tried ++ [autosaveLine 0]) ∧
    (∀ (n : String) (ops : List Op), (s.Load n).2 = none →
      (s.Load n).1.quiet ops = true →
      ((s.Load n).1.run ops).saveEnable = true →
      ((s.Load n).1.run ops).tick.stdin.tried
        = ((s.Load n).1.run ops).stdin.tried ++ [autosaveLine s.saveN]) := by
  refine ⟨Load_saveN s, ?_, ?_⟩
  · intro m ops hok hq hen
    obtain ⟨f1, f2⟩ := StartGame_ok_fields s m hok
    obtain ⟨q1, q2⟩ := quiet_run ops _ hq
    have ht := (tick_running _ (by rw [q2, f1]) hen).1
    rw [ht, q1, f2]
  · intro n ops hok hq hen
    obtain ⟨q1, q2⟩ := quiet_run ops _ hq
    have ht := (tick_running _ (by rw [q2, Load_ok_started s n hok]) hen).1
    rw [ht, q1, Load_saveN]

theorem first_autosave_witness :
    (pausedServer.Load "mysafe").2 = none ∧
    (pausedServer.Load "mysafe").1.quiet [Op.tick, Op.Pause false] = true ∧
    ((pausedServer.Load "mysafe").1.run [Op.tick, Op.Pause false]).saveEnable = true ∧
    ((pausedServer.Load "mysafe").1.run [Op.tick, Op.Pause false]).tick.stdin.tried
      = ((pausedServer.Load "mysafe").1.run [Op.tick, Op.Pause false]).stdin.tried
        ++ [autosaveLine 3] :=
  ⟨by decide, by decide, by decide,
    (first_autosave pausedServer).2.2 "mysafe" [Op.tick, Op.Pause false]
      (by decide) (by decide) (by decide)⟩

/-- C5. After any interleaving `ops` of lifecycle calls and ticks: a tick on
which `started` or `saveEnable` is false writes nothing and leaves `saveN`
as it is; and `j` consecutive ticks on which both flags hold, starting from
`saveN = k` (with `k + j` within the range of `int`), write exactly the lines
`save autosave-k`, `save autosave-(k+1)`, ..., `save autosave-(k+j-1)`, in
that order, and end with `saveN = k + j`; these lines are pairwise distinct. -/
theorem autosave_sequence (s0 : Server) (ops : List Op) (j : Nat) :
    ((s0.run ops).started = false ∨ (s0.run ops).saveEnable = false →
      (s0.run (ops ++ [Op.tick])).stdin = (s0.run ops).stdin ∧
      (s0.run (ops ++ [Op.tick])).saveN = (s0.run ops).saveN) ∧
    ((s0.run ops).started = true → (s0.run ops).saveEnable = true →
      -2 ^ 63 ≤ (s0.run ops).saveN → (s0.run ops).saveN + j < 2 ^ 63 →
      (s0.run (ops ++ List.replicate j Op.tick)).stdin.tried
        = (s0.run ops).stdin.tried
          ++ (List.range j).map (fun i : Nat => autosaveLine ((s0.run ops).saveN + i)) ∧
      (s0.run (ops ++ List.replicate j Op.tick)).saveN = (s0.run ops).saveN + j ∧
      (s0.run (ops ++ List.replicate j Op.tick)).started = true ∧
      (s0.run (ops ++ List.replicate j Op.tick)).saveEnable = true) ∧
    ((List.range j).map (fun i : Nat => autosaveLine ((s0.run ops).saveN + i))).Nodup := by
  have happ : ∀ l : List Op, s0.run (ops ++ l) = (s0.run ops).run l := by
    intro l; simp [Server.run, List.foldl_append]
  refine ⟨?_, ?_, ?_⟩
  · intro h
    rw [happ]
    have : (s0.run ops).run [Op.tick] = (s0.run ops).tick := rfl
    rw [this, tick_idle _ h]
    exact ⟨rfl, rfl⟩
  · intro h1 h2 h3 h4
    rw [happ]
    exact run_ticks j _ h1 h2 h3 h4
  · refine List.Nodup.map ?_ (List.nodup_range j)
    intro a b hab
    have := autosaveLine_injective hab
    omega

theorem autosave_sequence_witness :
    ((NewStartedServer okWriter).run [Op.StartGame "Molten_Lake"]).started = true ∧
    ((NewStartedServer okWriter).run
        ([Op.StartGame "Molten_Lake"] ++ List.replicate 2 Op.tick)).stdin.tried
      = ((NewStartedServer okWriter).run [Op.StartGame "Molten_Lake"]).stdin.tried
        ++ (List.range 2).map (fun i : Nat =>
            autosaveLine (((NewStartedServer okWriter).run [Op.StartGame "Molten_Lake"]).saveN
              + i)) :=
  ⟨by decide,
    ((autosave_sequence (NewStartedServer okWriter) [Op.StartGame "Molten_Lake"] 2).2.1
      (by decide) (by decide) (by decide) (by decide)).1⟩

/-! ## The save enumerator -/

/-- C8. For every list of names, `FSSaves` applied to the matches
`config/saves/<name>.msav` of these names returns, in the order of the
matches, exactly the names that do not contain `autosave`, each without the
`config/saves/` directory and the `.msav` extension; no returned name contains
`autosave`.  The match `config/saves/mysafe.msav` yields `mysafe`, and
`config/saves/autosave-3.msav` yields nothing. -/
theorem FSSaves_spec (names : List String) :
    FSSaves (names.map savePath) = names.filter (fun n => !Contains n "autosave") ∧
    (∀ r ∈ FSSaves (names.map savePath), Contains r "autosave" = false) ∧
    FSSaves ["config/saves/mysafe.msav"] = ["mysafe"] ∧
    FSSaves ["config/saves/autosave-3.msav"] = [] ∧
    FSSaves ["config/saves/autosave-3.msav", "config/saves/mysafe.msav",
        "config/saves/other.msav"] = ["mysafe", "other"] := by
  refine ⟨FSSaves_savePaths names, ?_, by decide, by decide, by decide⟩
  intro r hr
  rw [FSSaves_savePaths] at hr
  simpa using (List.mem_filter.1 hr).2

end Minduweb
